import Mathlib

/-!
Verification development for the Listing Cache & Verification Engine of the
Shopping_Platform job-search aggregator.

The TypeScript sources are embedded shallowly:
  * `src/app/lib/searchEnhancer.ts`   — query optimizer,
  * `src/app/lib/jobCacheService.ts`  — cache store adapter (Firestore),
  * `src/app/lib/jobVerificationService.ts` — verification engine,
  * `src/app/api/jobs/route.ts`       — search orchestrator (GET),
  * `src/app/api/jobs/verify/[id]/route.ts` — on-demand verify endpoint.

JavaScript strings are modelled through their character lists (`String.data`);
all inputs of interest are ASCII, so JS `toLowerCase`, `trim`, `split(/\s+/)`,
`includes`, `startsWith` and `.length` are embedded by the ASCII functions
below.  Firestore collections are modelled as association lists from document
id to document; `Timestamp`s are integer milliseconds.  Outbound network calls
(`fetch`) are modelled by passing the outcome of the call as an explicit
argument: `none` stands for a thrown error / timeout, `some r` for a response.
-/

namespace Shopping

/-- ASCII embedding of JS `String.prototype.toLowerCase` on a character. -/
def jsCharLower (c : Char) : Char :=
  if 'A' ≤ c ∧ c ≤ 'Z' then Char.ofNat (c.toNat + 32) else c

/-- JS `toLowerCase` on a string. -/
def jsLower (s : String) : String :=
  ⟨s.data.map jsCharLower⟩

/-- Whitespace characters recognised by JS `\s` / `trim` (ASCII subset). -/
def jsIsWs (c : Char) : Bool :=
  c == ' ' || c == '\t' || c == '\n' || c == '\r'

/-- JS `String.prototype.trim`. -/
def jsTrim (s : String) : String :=
  ⟨((s.data.dropWhile jsIsWs).reverse.dropWhile jsIsWs).reverse⟩

/-- Does `pat` occur at the start of `l`?  (JS `startsWith`, on char lists.) -/
def listStarts : List Char → List Char → Bool
  | [], _ => true
  | _ :: _, [] => false
  | p :: ps, c :: cs => p == c && listStarts ps cs

/-- Does `pat` occur anywhere in `l`?  (JS `includes`, on char lists.) -/
def listOccurs (pat : List Char) : List Char → Bool
  | [] => listStarts pat []
  | c :: cs => listStarts pat (c :: cs) || listOccurs pat cs

/-- JS `String.prototype.startsWith`. -/
def jsStartsWith (s pat : String) : Bool :=
  listStarts pat.data s.data

/-- JS `String.prototype.endsWith`. -/
def jsEndsWith (s pat : String) : Bool :=
  listStarts pat.data.reverse s.data.reverse

/-- JS `String.prototype.includes`. -/
def jsIncludes (s pat : String) : Bool :=
  listOccurs pat.data s.data

/-- JS `String.prototype.length` (code units; all inputs here are ASCII). -/
def jsLen (s : String) : Nat :=
  s.data.length

/-- Auxiliary for `jsSplitWs`: the current accumulated word is `acc`
(reversed); `inSep` records that the previous character was whitespace, so
further whitespace belongs to the same separator run. -/
def splitWsAux : List Char → List Char → Bool → List String
  | [], acc, _ => [⟨acc.reverse⟩]
  | c :: cs, acc, inSep =>
    if jsIsWs c then
      if inSep then splitWsAux cs acc true
      else ⟨acc.reverse⟩ :: splitWsAux cs [] true
    else splitWsAux cs (c :: acc) false

/-- JS `String.prototype.split(/\s+/)`: splits on maximal whitespace runs; a
leading (resp. trailing) run produces a leading (resp. trailing) empty
string, and splitting the empty string yields `[""]`, as in JS. -/
def jsSplitWs (s : String) : List String :=
  splitWsAux s.data [] false

/-- JS `Set.prototype.add` on a list kept in insertion order: appends the
element unless already present (first insertion wins). -/
def insertUniq (l : List String) (x : String) : List String :=
  if l.contains x then l else l ++ [x]

/-! ## Query optimizer (`src/app/lib/searchEnhancer.ts`) -/

/-- `JOB_CATEGORIES` from `searchEnhancer.ts`, in source (insertion) order. -/
def JOB_CATEGORIES : List (String × List String) :=
  [ ("software", ["software engineer", "software developer", "programmer",
      "coder", "developer", "swe", "dev"]),
    ("frontend", ["frontend developer", "front-end developer",
      "react developer", "angular developer", "vue developer", "ui developer",
      "javascript developer", "web developer", "fe dev"]),
    ("backend", ["backend developer", "back-end developer", "api developer",
      "server developer", "php developer", "python developer",
      "java developer", "node developer", "be dev"]),
    ("fullstack", ["full stack developer", "full-stack developer",
      "web developer", "fullstack dev", "fs dev"]),
    ("mobile", ["mobile developer", "android developer", "ios developer",
      "react native developer", "app developer"]),
    ("devops", ["devops engineer", "cloud engineer", "sre",
      "site reliability engineer", "infrastructure engineer"]),
    ("data", ["data scientist", "data analyst", "data engineer",
      "business analyst", "database administrator", "ds"]),
    ("analytics", ["analytics", "business intelligence", "bi analyst",
      "data visualization", "tableau"]),
    ("machine learning", ["ml engineer", "ai engineer",
      "artificial intelligence", "deep learning", "nlp", "ml"]),
    ("design", ["ui designer", "ux designer", "graphic designer",
      "web designer", "product designer"]),
    ("product", ["product designer", "product manager", "product owner",
      "ux researcher", "pm"]),
    ("marketing", ["digital marketing", "content marketing", "seo specialist",
      "social media manager", "marketing manager"]),
    ("sales", ["sales representative", "account executive",
      "business development", "sales manager"]),
    ("finance", ["financial analyst", "accountant", "controller",
      "finance manager", "bookkeeper"]),
    ("manager", ["project manager", "team lead", "director",
      "program manager", "scrum master"]),
    ("executive", ["cto", "ceo", "vp", "vice president", "chief"]),
    ("intern", ["internship", "co-op", "student", "graduate", "junior"]),
    ("senior", ["sr", "lead", "principal", "architect", "expert"]),
    ("junior", ["jr", "entry level", "associate", "trainee", "beginner"]) ]

/-- `ABBREVIATIONS` from `searchEnhancer.ts`, as a lookup function (`[]` plays
the role of an absent key, which is falsy in the JS `if`). -/
def ABBREVIATIONS : String → List String
  | "eng" => ["engineer", "engineering"]
  | "dev" => ["developer", "development"]
  | "mgr" => ["manager"]
  | "sr" => ["senior"]
  | "jr" => ["junior"]
  | "swe" => ["software engineer"]
  | "fe" => ["frontend", "front-end"]
  | "be" => ["backend", "back-end"]
  | "fs" => ["fullstack", "full-stack"]
  | "pm" => ["product manager", "project manager"]
  | "qa" => ["quality assurance", "tester"]
  | "ui" => ["user interface"]
  | "ux" => ["user experience"]
  | "ai" => ["artificial intelligence"]
  | "ml" => ["machine learning"]
  | "bi" => ["business intelligence"]
  | "ds" => ["data scientist"]
  | "sci" => ["scientist"]
  | _ => []

/-- `expandAbbreviations(term)`: lowercases and splits the term, then for every
word position holding a known abbreviation adds the variants obtained by
substituting each expansion at that position (words joined by single spaces).
The original term is inserted first. -/
def expandAbbreviations (term : String) : List String :=
  let words := jsSplitWs (jsLower term)
  (List.range words.length).foldl
    (fun acc i =>
      match words.get? i with
      | none => acc
      | some w =>
        (ABBREVIATIONS w).foldl
          (fun acc2 expansion =>
            insertUniq acc2 (String.intercalate " " (words.set i expansion)))
          acc)
    [term]

/-- The body of the keyword loop in `findFuzzyMatches`: adds `keyword` when the
normalized term is a substring of it, a prefix of it, or word-by-word
prefix-matches it (each term word, of length ≥ 2, a prefix of some keyword
word); all three checks are gated on the term having length ≥ 3. -/
def fuzzyKeywordStep (normalizedTerm : String) (acc : List String)
    (keyword : String) : List String :=
  let keywordLower := jsLower keyword
  if jsLen normalizedTerm ≥ 3 then
    let acc1 := if jsIncludes keywordLower normalizedTerm then
      insertUniq acc keyword else acc
    let acc2 := if jsStartsWith keywordLower normalizedTerm then
      insertUniq acc1 keyword else acc1
    let termWords := jsSplitWs normalizedTerm
    let keywordWords := jsSplitWs keywordLower
    if termWords.all (fun tw =>
        keywordWords.any (fun kw => jsStartsWith kw tw && jsLen tw ≥ 2)) then
      insertUniq acc2 keyword
    else acc2
  else acc

/-- `findFuzzyMatches(term)`: walks the category table in insertion order;
when the normalized term contains the category name, the first two keywords
are added; every keyword is then tested by `fuzzyKeywordStep`.  The original
term is inserted first and the result is capped at 3 entries. -/
def findFuzzyMatches (term : String) : List String :=
  let normalizedTerm := jsTrim (jsLower term)
  let collected :=
    JOB_CATEGORIES.foldl
      (fun acc cat =>
        let acc := if jsIncludes normalizedTerm cat.1 then
          (cat.2.take 2).foldl insertUniq acc else acc
        cat.2.foldl (fuzzyKeywordStep normalizedTerm) acc)
      [term]
  collected.take 3

/-- Stable insertion (descending by JS length) used to model
`Array.prototype.sort((a, b) => b.length - a.length)`, which is stable. -/
def insertByLenDesc (x : String) : List String → List String
  | [] => [x]
  | y :: ys => if jsLen y < jsLen x then x :: y :: ys else y :: insertByLenDesc x ys

/-- Stable sort, descending by JS length (model of the source's `sort`). -/
def sortByLenDesc (l : List String) : List String :=
  l.foldl (fun acc x => insertByLenDesc x acc) []

/-- The candidate set `allMatches` collected by `optimizeSearchQuery`:
fuzzy matches of every abbreviation-expanded variant, deduplicated in
insertion order. -/
def allMatchesOf (query : String) : List String :=
  (expandAbbreviations query).foldl
    (fun acc t => (findFuzzyMatches t).foldl insertUniq acc) []

/-- The filter `betterMatches` of `optimizeSearchQuery`: candidates that are
not case-insensitively equal to the query and strictly longer than it. -/
def betterMatchesOf (query : String) : List String :=
  (allMatchesOf query).filter
    (fun m => !(jsLower m == jsLower query) && jsLen query < jsLen m)

/-- `optimizeSearchQuery(query)` from `searchEnhancer.ts`.  JS `!query` is
true exactly on the empty string. -/
def optimizeSearchQuery (query : String) : String :=
  if query == "" || jsTrim query == "" then ""
  else if jsIncludes query " OR " || jsIncludes query " AND " then query
  else
    let betterMatches := betterMatchesOf query
    if 0 < betterMatches.length then
      (sortByLenDesc betterMatches).headD query
    else query

/-! ## Data model (`src/app/types/index.ts`, Firestore documents) -/

/-- JSON values, for the provider payload carried by a listing.  Firestore
`Timestamp`s are integer milliseconds (`num`). -/
inductive Json where
  | null
  | bool (b : Bool)
  | num (n : Int)
  | str (s : String)
  | arr (elems : List Json)
  | obj (fields : List (String × Json))

/-- A key rejected by Firestore: starts and ends with `__`. -/
def isDunderKey (k : String) : Bool :=
  jsStartsWith k "__" && jsEndsWith k "__"

/-- `sanitizeJobForFirestore`'s recursive `sanitizeObject`: removes every
object field whose key starts and ends with `__`, recursing into nested
objects and arrays (JS `Object.keys` on an array yields its indices, which
are never dunder, so array elements are recursed into and kept). -/
def sanitizeJson : Json → Json
  | .null => .null
  | .bool b => .bool b
  | .num n => .num n
  | .str s => .str s
  | .arr elems => .arr (elems.attach.map fun x => sanitizeJson x.1)
  | .obj fields =>
      .obj ((fields.filter fun kv => !(isDunderKey kv.1)).attach.map
        fun kv => (kv.1.1, sanitizeJson kv.1.2))
termination_by j => sizeOf j
decreasing_by
  · have h := List.sizeOf_lt_of_mem x.2
    simp only [Json.arr.sizeOf_spec]
    omega
  · have h2 : kv.1 ∈ fields := List.mem_of_mem_filter kv.2
    have h := List.sizeOf_lt_of_mem h2
    have h3 : sizeOf kv.1.2 < sizeOf kv.1 := by
      obtain ⟨a, b⟩ := kv.1
      simp only [Prod.mk.sizeOf_spec]
      omega
    simp only [Json.obj.sizeOf_spec]
    omega

/-- The provider-side fields of a listing that the core reads.  The remaining
provider fields (description, company, …) are carried opaquely in `payload`.
An absent or empty redirect URL is modelled by `""` (both are falsy in the
JS `!job.redirect_url` test). -/
structure JobListing where
  id : String
  redirect_url : String
  payload : Json

/-- A document of the `cachedJobs` collection: the (sanitized) listing plus
the verification metadata written by the cache service. -/
structure CachedJobDoc where
  id : String
  redirect_url : String
  payload : Json
  createdAt : Option Int
  verifiedAt : Option Int
  isValid : Bool
  verificationAttempts : Nat

/-- Search parameters; absent fields are `none` (JS `undefined`). -/
structure JobSearchParams where
  title : Option String
  location : Option String
  job_type : Option String
  page : Option Int
  results_per_page : Option Int
deriving DecidableEq, Repr

/-- A document of the `cachedSearchResults` collection. -/
structure CachedSearchDoc where
  params : JobSearchParams
  jobIds : List String
  totalJobs : Int
  totalPages : Int
  createdAt : Int
deriving DecidableEq, Repr

/-- A Firestore collection: association list from document id to document
(at most one entry per id in every store built by the operations below). -/
abbrev JobsStore := List (String × CachedJobDoc)

abbrev SearchStore := List (String × CachedSearchDoc)

/-- `getDoc`: fetch a document by id. -/
def getDocIn {α : Type} (s : List (String × α)) (id : String) : Option α :=
  match s with
  | [] => none
  | kv :: rest => if kv.1 == id then some kv.2 else getDocIn rest id

/-- `setDoc` / `batch.set`: overwrite the document wholesale, creating it if
missing. -/
def setDocIn {α : Type} (s : List (String × α)) (id : String) (d : α) :
    List (String × α) :=
  match s with
  | [] => [(id, d)]
  | kv :: rest =>
      if kv.1 == id then (id, d) :: rest else kv :: setDocIn rest id d

/-! ## Cache store adapter (`src/app/lib/jobCacheService.ts`) -/

/-- 20 days in milliseconds (`DEFAULT_EXPIRATION_MS`). -/
def DEFAULT_EXPIRATION_MS : Int := 20 * 24 * 60 * 60 * 1000

/-- JS `x || ''` for an optional string (absent and `""` both yield `""`). -/
def jsOrEmpty : Option String → String
  | some s => s
  | none => ""

/-- JS `page || 1` for an optional number (absent and `0` both yield `1`). -/
def jsOrOne : Option Int → Int
  | some n => if n == 0 then 1 else n
  | none => 1

/-- `getSearchCacheKey(params)`: the search fingerprint
`` `${title || ''}_${location || ''}_${job_type || ''}_${page || 1}` ``. -/
def getSearchCacheKey (params : JobSearchParams) : String :=
  jsOrEmpty params.title ++ "_" ++ jsOrEmpty params.location ++ "_" ++
    jsOrEmpty params.job_type ++ "_" ++ toString (jsOrOne params.page)

/-- `getCachedSearchResults(params)`: absent if the fingerprint has no
document or the entry is older than 20 days (`now > createdAt + 20d`),
evaluated lazily at read time. -/
def getCachedSearchResults (store : SearchStore) (now : Int)
    (params : JobSearchParams) : Option CachedSearchDoc :=
  match getDocIn store (getSearchCacheKey params) with
  | none => none
  | some data =>
      if data.createdAt + DEFAULT_EXPIRATION_MS < now then none else some data

/-- The job document written by `cacheSearchResults` for one listing: the
sanitized listing spread together with `createdAt := now` and the default
verification fields (`verifiedAt: null`, `isValid: true`,
`verificationAttempts: 0`).  `batch.set` overwrites the whole document, so
these defaults are written whether or not the id already existed. -/
def jobDocOfListing (job : JobListing) (now : Int) : CachedJobDoc :=
  { id := job.id
    redirect_url := job.redirect_url
    payload := sanitizeJson job.payload
    createdAt := some now
    verifiedAt := none
    isValid := true
    verificationAttempts := 0 }

/-- `cacheSearchResults(params, jobs, totalJobs, totalPages)`: one write
batch holding the search document and one document per listing; `commitOk`
models whether `batch.commit()` succeeds (`false`: the thrown error is
caught, nothing is written, and `false` is returned). -/
def cacheSearchResults (searchStore : SearchStore) (jobsStore : JobsStore)
    (now : Int) (commitOk : Bool) (params : JobSearchParams)
    (jobs : List JobListing) (totalJobs totalPages : Int) :
    Bool × SearchStore × JobsStore :=
  if !commitOk then (false, searchStore, jobsStore)
  else
    let cacheKey := getSearchCacheKey params
    let searchStore' := setDocIn searchStore cacheKey
      { params := params
        jobIds := jobs.map (fun j => j.id)
        totalJobs := totalJobs
        totalPages := totalPages
        createdAt := now }
    let jobsStore' := jobs.foldl
      (fun st job => setDocIn st job.id (jobDocOfListing job now)) jobsStore
    (true, searchStore', jobsStore')

/-- The inner loop of `getCachedJobsByIds` for one slice of ids: fetch each
document in order, keep it only when it exists and its `isValid` flag is
true.  No expiration check is made here. -/
def collectJobsBatch (store : JobsStore) (acc : List CachedJobDoc) :
    List String → List CachedJobDoc
  | [] => acc
  | jobId :: rest =>
    match getDocIn store jobId with
    | some jobData =>
        if jobData.isValid then collectJobsBatch store (acc ++ [jobData]) rest
        else collectJobsBatch store acc rest
    | none => collectJobsBatch store acc rest

/-- `getCachedJobsByIds` processes the id list in slices of 10
(`jobIds.slice(i, i + 10)`). -/
def getCachedJobsByIdsAux (store : JobsStore) (jobIds : List String)
    (acc : List CachedJobDoc) : List CachedJobDoc :=
  match jobIds with
  | [] => acc
  | y :: ys =>
      getCachedJobsByIdsAux store ((y :: ys).drop 10)
        (collectJobsBatch store acc ((y :: ys).take 10))
termination_by jobIds.length
decreasing_by
  simp only [List.length_drop, List.length_cons]
  omega

/-- `getCachedJobsByIds(jobIds)`. -/
def getCachedJobsByIds (store : JobsStore) (jobIds : List String) :
    List CachedJobDoc :=
  getCachedJobsByIdsAux store jobIds []

/-- `getCachedJob(jobId)`: absent if missing or expired (20 days from
`createdAt`); a document without `createdAt` is returned as-is. -/
def getCachedJob (store : JobsStore) (now : Int) (jobId : String) :
    Option CachedJobDoc :=
  match getDocIn store jobId with
  | none => none
  | some jobData =>
    match jobData.createdAt with
    | none => some jobData
    | some t =>
        if t + DEFAULT_EXPIRATION_MS < now then none else some jobData

/-- `updateJobValidity(jobId, isValid)`: sets the flag, stamps `verifiedAt`,
increments the attempt count.  `updateDoc` throws when the document no
longer exists; the error is caught and `false` returned, leaving the store
unchanged. -/
def updateJobValidity (store : JobsStore) (now : Int) (jobId : String)
    (isValid : Bool) : Bool × JobsStore :=
  match getDocIn store jobId with
  | none => (false, store)
  | some d =>
      (true, setDocIn store jobId
        { d with
          isValid := isValid
          verifiedAt := some now
          verificationAttempts := d.verificationAttempts + 1 })

/-- A job document counted as expired by the sweeper's query: it has a
`createdAt` (the `!= null` clause) older than 20 days before now. -/
def isExpiredDoc (now : Int) (d : CachedJobDoc) : Bool :=
  match d.createdAt with
  | some t => t < now - DEFAULT_EXPIRATION_MS
  | none => false

/-- `cleanupExpiredJobs(batchSize)`: deletes up to `batchSize` expired job
documents as one batch and returns the number deleted. -/
def cleanupExpiredJobs (store : JobsStore) (now : Int) (batchSize : Nat) :
    Nat × JobsStore :=
  let expired := (store.filter (fun kv => isExpiredDoc now kv.2)).take batchSize
  if expired.length = 0 then (0, store)
  else
    (expired.length,
     store.filter (fun kv => !((expired.map (fun e => e.1)).contains kv.1)))

/-! ## Verification engine (`src/app/lib/jobVerificationService.ts`)

The outcome of each outbound `fetch` is passed in explicitly: `none` models a
thrown error or timeout (the `AbortSignal` firing, DNS failure, …), `some`
carries the HTTP status (and, for the advanced check, the body text). -/

/-- JS `Response.ok`: status in the range 200–299. -/
def respOk (status : Int) : Bool :=
  200 ≤ status && status ≤ 299

/-- `verifyJobValidity(job)`: skip (valid) when there is no redirect URL;
otherwise HEAD-probe it: valid iff `response.ok` and the status is neither
404 nor 410, recorded via `updateJobValidity`.  A thrown fetch is caught:
no update, report valid. -/
def verifyJobValidity (store : JobsStore) (now : Int) (probe : Option Int)
    (job : CachedJobDoc) : Bool × JobsStore :=
  if job.redirect_url == "" then (true, store)
  else
    match probe with
    | none => (true, store)
    | some status =>
      let isValid := respOk status && !(status == 404 || status == 410)
      let upd := updateJobValidity store now job.id isValid
      (isValid, upd.2)

/-- The `closedPhrases` list of `performAdvancedVerification`. -/
def closedPhrases : List String :=
  [ "position has been filled",
    "no longer accepting applications",
    "application period closed",
    "this job is no longer available",
    "position is filled",
    "job has been closed",
    "vacancy is now closed" ]

/-- The `applicationFormIndicators` list of `performAdvancedVerification`. -/
def applicationFormIndicators : List String :=
  [ "application form",
    "apply now",
    "submit your",
    "upload your",
    "resume",
    "cv",
    "cover letter" ]

/-- `performAdvancedVerification(job)`: fetch the page body; a non-OK status
forces invalid; a closed phrase in the lowercased body forces invalid;
otherwise validity is the presence of an application-form indicator.  Every
definite outcome is recorded via `updateJobValidity`; a thrown fetch is
caught: no update, report valid. -/
def performAdvancedVerification (store : JobsStore) (now : Int)
    (fetchResult : Option (Int × String)) (job : CachedJobDoc) :
    Bool × JobsStore :=
  if job.redirect_url == "" then (true, store)
  else
    match fetchResult with
    | none => (true, store)
    | some (status, text) =>
      if !respOk status then
        let upd := updateJobValidity store now job.id false
        (false, upd.2)
      else
        let textLower := jsLower text
        if closedPhrases.any (fun p => jsIncludes textLower p) then
          let upd := updateJobValidity store now job.id false
          (false, upd.2)
        else
          let hasApplicationForm :=
            applicationFormIndicators.any (fun p => jsIncludes textLower p)
          let upd := updateJobValidity store now job.id hasApplicationForm
          (hasApplicationForm, upd.2)

/-- 10 days in milliseconds. -/
def TEN_DAYS_MS : Int := 10 * 24 * 60 * 60 * 1000

/-- 15 days in milliseconds. -/
def FIFTEEN_DAYS_MS : Int := 15 * 24 * 60 * 60 * 1000

/-- `verifyJobById(jobId)` — the on-demand verification entry point: job
missing from the cache ⇒ `false`; age below 10 days ⇒ `true`, untouched;
otherwise run the basic check, and when it passes and the age is known and
strictly above 15 days, escalate to the advanced check.  A job document
without `createdAt` has age `Infinity` (modelled by `none`): it is verified
(the 10-day guard fails) but never escalated (`jobAge !== Infinity` fails). -/
def verifyJobById (store : JobsStore) (now : Int) (probe : Option Int)
    (advFetch : Option (Int × String)) (jobId : String) : Bool × JobsStore :=
  match getCachedJob store now jobId with
  | none => (false, store)
  | some job =>
    let jobAge : Option Int := job.createdAt.map (fun t => now - t)
    let belowTenDays : Bool :=
      match jobAge with
      | some a => decide (a < TEN_DAYS_MS)
      | none => false
    if belowTenDays then (true, store)
    else
      let basic := verifyJobValidity store now probe job
      if !basic.1 then (false, basic.2)
      else
        let escalate : Bool :=
          match jobAge with
          | some a => decide (FIFTEEN_DAYS_MS < a)
          | none => false
        if escalate then performAdvancedVerification basic.2 now advFetch job
        else (basic.1, basic.2)

/-! ## On-demand verify endpoint (`src/app/api/jobs/verify/[id]/route.ts`) -/

/-- The verification envelope returned to the UI. -/
structure VerificationStatus where
  isValid : Bool
  verifiedAt : Option Int
  attempts : Nat

/-- Response of `GET /api/jobs/verify/[id]`. -/
inductive VerifyEndpointResult where
  | notFound
  | ok (status : VerificationStatus) (job : Option CachedJobDoc)

/-- The endpoint: 404 when the job is not in the cache (or expired there),
otherwise run `verifyJobById` and re-read the job for the envelope
(`verifiedAt || null`, `verificationAttempts || 0`). -/
def verifyEndpointGET (store : JobsStore) (now : Int) (probe : Option Int)
    (advFetch : Option (Int × String)) (jobId : String) :
    VerifyEndpointResult × JobsStore :=
  match getCachedJob store now jobId with
  | none => (.notFound, store)
  | some _ =>
    let res := verifyJobById store now probe advFetch jobId
    let updatedJob := getCachedJob res.2 now jobId
    (.ok
      { isValid := res.1
        verifiedAt := match updatedJob with
                      | some j => j.verifiedAt
                      | none => none
        attempts := match updatedJob with
                    | some j => j.verificationAttempts
                    | none => 0 }
      updatedJob,
     res.2)

/-! ## Search orchestrator (`src/app/api/jobs/route.ts`, GET) -/

/-- The request parameters after the route has read them off the URL
(`|| ""`, `parseInt(... || "1")`, `skip_cache === "true"`). -/
structure RouteParams where
  title : String
  location : String
  job_type : String
  page : Int
  results_per_page : Int
  skipCache : Bool

/-- The `JobSearchParams` object the route builds for the cache. -/
def paramsOf (p : RouteParams) : JobSearchParams :=
  { title := some p.title
    location := some p.location
    job_type := some p.job_type
    page := some p.page
    results_per_page := some p.results_per_page }

/-- Process environment and module-level rate-limit state of the route.
`isNewDay` models `new Date().toDateString() !== lastResetDate`, which
resets the counter. -/
structure RouteEnv where
  appId : Option String
  apiKey : Option String
  baseUrl : Option String
  requestsToday : Nat
  isNewDay : Bool

/-- JS falsiness of an env string (`!appId`): absent or empty. -/
def jsStrFalsy : Option String → Bool
  | none => true
  | some s => s == ""

/-- Adzuna success payload (`data.results || []`, `data.count || 0`). -/
structure ProviderPayload where
  results : List JobListing
  count : Int

/-- The JSON response of the jobs route.  A fresh success carries the raw
provider listings (no `fromCache` flag); a cache hit carries the cached job
documents and `fromCache: true`. -/
inductive RouteResponse where
  | successCached (jobs : List CachedJobDoc) (totalJobs totalPages currentPage : Int)
  | successFresh (jobs : List JobListing) (totalJobs totalPages currentPage : Int)
  | errorResp (status : Int)

/-- The country code the route derives from the location string. -/
def countryCodeOf (location : String) : String :=
  let l := jsLower location
  if jsIncludes l "toronto" || jsIncludes l "canada" || jsIncludes l "ontario"
  then "ca"
  else if jsIncludes l "london" || jsIncludes l "uk" || jsIncludes l "england"
  then "gb"
  else "us"

/-- The `what` query parameter sent to the provider: the title passed through
the query optimizer (only appended when the title is non-empty). -/
def providerWhatParam (p : RouteParams) : Option String :=
  if p.title == "" then none else some (optimizeSearchQuery p.title)

/-- `Math.ceil(count / results_per_page)` for the arguments arising here
(a non-positive divisor is outside the modelled domain). -/
def jsCeilDiv (count rpp : Int) : Int :=
  if 0 < rpp then (count + rpp - 1) / rpp else 0

/-- `GET /api/jobs`.  `provider` is the outcome of the Adzuna fetch (`none`:
the fetch threw, caught by the outer handler as a 500); `commitOk` is the
outcome of the cache batch commit.  The returned stores are the stores
after the cache write; the subsequent `cleanupExpiredJobs()` call is
fire-and-forget (its promise is not awaited and its failure only logged),
so it is not part of the response path modelled here. -/
def routeGET (env : RouteEnv) (searchStore : SearchStore)
    (jobsStore : JobsStore) (now : Int) (p : RouteParams)
    (provider : Option (Int × ProviderPayload)) (commitOk : Bool) :
    RouteResponse × SearchStore × JobsStore :=
  let params := paramsOf p
  let cachedResults :=
    if p.skipCache then none else getCachedSearchResults searchStore now params
  match cachedResults with
  | some c =>
    (.successCached (getCachedJobsByIds jobsStore c.jobIds)
       c.totalJobs c.totalPages p.page,
     searchStore, jobsStore)
  | none =>
    if jsStrFalsy env.appId || jsStrFalsy env.apiKey || jsStrFalsy env.baseUrl
    then (.errorResp 500, searchStore, jobsStore)
    else
      let requestsToday := if env.isNewDay then 0 else env.requestsToday
      if 90 ≤ requestsToday then (.errorResp 429, searchStore, jobsStore)
      else
        match provider with
        | none => (.errorResp 500, searchStore, jobsStore)
        | some (status, data) =>
          if !respOk status then (.errorResp status, searchStore, jobsStore)
          else
            let totalPages := jsCeilDiv data.count p.results_per_page
            let write := cacheSearchResults searchStore jobsStore now commitOk
              params data.results data.count totalPages
            (.successFresh data.results data.count totalPages p.page,
             write.2.1, write.2.2)

/-! ## Helper lemmas -/

set_option maxRecDepth 40000

theorem getDocIn_setDocIn_self {α : Type} (s : List (String × α)) (id : String)
    (d : α) : getDocIn (setDocIn s id d) id = some d := by
  induction s with
  | nil => simp [setDocIn, getDocIn]
  | cons kv rest ih =>
    by_cases h : (kv.1 == id) = true
    · simp [setDocIn, getDocIn, h]
    · simp only [setDocIn, getDocIn, h, Bool.false_eq_true, if_false,
        if_neg (by simpa using h)]
      exact ih

theorem getDocIn_setDocIn_ne {α : Type} (s : List (String × α)) (k id : String)
    (d : α) (h : (k == id) = false) :
    getDocIn (setDocIn s k d) id = getDocIn s id := by
  induction s with
  | nil => simp [setDocIn, getDocIn, h]
  | cons kv rest ih =>
    rcases hk : kv.1 == k with _ | _
    · simp only [setDocIn, hk, Bool.false_eq_true, if_false, getDocIn]
      split
      · rfl
      · exact ih
    · have hk' : kv.1 = k := eq_of_beq hk
      simp [setDocIn, getDocIn, hk, hk', h]

theorem listStarts_mem (pat l : List Char) (h : listStarts pat l = true) :
    ∀ c ∈ pat, c ∈ l := by
  induction pat generalizing l with
  | nil => intro c hc; cases hc
  | cons p ps ih =>
    cases l with
    | nil => simp [listStarts] at h
    | cons x xs =>
      simp only [listStarts, Bool.and_eq_true, beq_iff_eq] at h
      obtain ⟨rfl, hrest⟩ := h
      intro c hc
      rcases List.mem_cons.mp hc with rfl | hc
      · exact List.mem_cons_self _ _
      · exact List.mem_cons_of_mem _ (ih xs hrest c hc)

theorem listOccurs_subset (pat l : List Char) (h : listOccurs pat l = true) :
    ∀ c ∈ pat, c ∈ l := by
  induction l with
  | nil =>
    intro c hc
    cases pat with
    | nil => cases hc
    | cons p ps => simp [listOccurs, listStarts] at h
  | cons x xs ih =>
    simp only [listOccurs, Bool.or_eq_true] at h
    rcases h with h | h
    · exact listStarts_mem _ _ h
    · intro c hc
      exact List.mem_cons_of_mem _ (ih h c hc)

theorem jsTrim_empty_all_ws (q : String) (h : jsTrim q = "") :
    ∀ c ∈ q.data, jsIsWs c = true := by
  have hdata : ((q.data.dropWhile jsIsWs).reverse.dropWhile jsIsWs).reverse
      = [] := congrArg String.data h
  rw [List.reverse_eq_nil_iff] at hdata
  have h2 : ∀ c ∈ (q.data.dropWhile jsIsWs).reverse, jsIsWs c = true :=
    List.dropWhile_eq_nil_iff.mp hdata
  intro c hc
  have hc' : c ∈ q.data.takeWhile jsIsWs ++ q.data.dropWhile jsIsWs := by
    rw [List.takeWhile_append_dropWhile]
    exact hc
  rcases List.mem_append.mp hc' with h3 | h3
  · exact List.mem_takeWhile_imp h3
  · exact h2 c (List.mem_reverse.mpr h3)

/-- A string containing a non-whitespace character does not trim to `""`. -/
theorem jsTrim_beq_empty_false (q : String) (c : Char) (hc : c ∈ q.data)
    (hw : jsIsWs c = false) : (jsTrim q == "") = false := by
  by_cases h : (jsTrim q == "") = true
  · exfalso
    have := jsTrim_empty_all_ws q (eq_of_beq h) c hc
    rw [hw] at this
    cases this
  · simpa using h

/-- A string with a member character is not `""`. -/
theorem beq_empty_false_of_mem (q : String) (c : Char) (hc : c ∈ q.data) :
    (q == "") = false := by
  by_cases h : (q == "") = true
  · exfalso
    have hq : q = "" := eq_of_beq h
    subst hq
    cases hc
  · simpa using h

/-! ## Claim theorems -/

/-- C5: if the basic verification probe throws or times out (modelled by a
`none` fetch outcome), `verifyJobValidity` returns `true` (no error
surfaces) and the jobs store — hence the stored validity flag, verified-at
timestamp and attempt count — is unchanged: `updateJobValidity` is never
reached. -/
theorem verifyJobValidity_fail_open (store : JobsStore) (now : Int)
    (job : CachedJobDoc) :
    verifyJobValidity store now none job = (true, store) := by
  unfold verifyJobValidity
  split <;> rfl

/-- C7: a listing stored with cache timestamp `T` is returned by
`getCachedJob` one second before `T + 20` days and absent one second after
`T + 20` days (expiry is evaluated lazily at read time). -/
theorem getCachedJob_expiry_boundary (store : JobsStore) (jobId : String)
    (doc : CachedJobDoc) (T : Int)
    (hdoc : getDocIn store jobId = some doc)
    (hts : doc.createdAt = some T) :
    getCachedJob store (T + DEFAULT_EXPIRATION_MS - 1000) jobId = some doc ∧
    getCachedJob store (T + DEFAULT_EXPIRATION_MS + 1000) jobId = none := by
  constructor
  · simp only [getCachedJob, hdoc, hts]
    rw [if_neg (by omega)]
  · simp only [getCachedJob, hdoc, hts]
    rw [if_pos (by omega)]

/-- Witness for C7 at a concrete store: a job cached at `T = 0`. -/
theorem getCachedJob_expiry_boundary_witness :
    getCachedJob [("j1", ⟨"j1", "u", Json.null, some 0, none, true, 0⟩)]
        (0 + DEFAULT_EXPIRATION_MS - 1000) "j1" =
      some ⟨"j1", "u", Json.null, some 0, none, true, 0⟩ ∧
    getCachedJob [("j1", ⟨"j1", "u", Json.null, some 0, none, true, 0⟩)]
        (0 + DEFAULT_EXPIRATION_MS + 1000) "j1" = none :=
  getCachedJob_expiry_boundary _ "j1" _ 0 rfl rfl

/-- C8: `optimizeSearchQuery` returns its input unchanged when the input is
empty or contains a boolean operator (`" OR "` / `" AND "`, as the source
tests them). -/
theorem optimize_noop_empty_or_boolean (q : String)
    (h : q = "" ∨ jsIncludes q " OR " = true ∨ jsIncludes q " AND " = true) :
    optimizeSearchQuery q = q := by
  have main : ∀ pat : String, jsIncludes q pat = true →
      ∀ c ∈ pat.data, jsIsWs c = false → optimizeSearchQuery q = q := by
    intro pat hpat c hcpat hwc
    have hcq : c ∈ q.data := listOccurs_subset pat.data q.data hpat c hcpat
    have hne := beq_empty_false_of_mem q c hcq
    have htr := jsTrim_beq_empty_false q c hcq hwc
    have hbool : (jsIncludes q " OR " || jsIncludes q " AND ") = true := by
      rcases h with rfl | h | h
      · cases hcq
      · simp [h]
      · simp [h]
    unfold optimizeSearchQuery
    rw [hne, htr]
    simp [hbool]
  rcases h with rfl | hOR | hAND
  · decide
  · exact main " OR " hOR 'O' (by decide) (by decide)
  · exact main " AND " hAND 'A' (by decide) (by decide)

/-- Witness for C8 at the spec's own example: a query containing `" OR "`. -/
theorem optimize_noop_empty_or_boolean_witness :
    optimizeSearchQuery "backend engineer OR pm" = "backend engineer OR pm" :=
  optimize_noop_empty_or_boolean "backend engineer OR pm"
    (Or.inr (Or.inl (by decide)))

/-- C4 counterexample: two parameter tuples whose `title`/`location` fields
differ produce the same fingerprint (the underscore-joined key is not
injective), refuting the "only if" direction of the claimed equivalence. -/
theorem fingerprint_collision_counterexample :
    getSearchCacheKey ⟨some "a_b", some "", some "", some 1, none⟩ =
      getSearchCacheKey ⟨some "a", some "b_", some "", some 1, none⟩ ∧
    (⟨some "a_b", some "", some "", some 1, none⟩ : JobSearchParams).title ≠
      (⟨some "a", some "b_", some "", some 1, none⟩ : JobSearchParams).title := by
  constructor
  · rfl
  · decide

/-- C4 (amended): equality of the four fields (title, location, job_type,
page) implies equality of the fingerprints; the converse direction of the
claimed equivalence fails (see the counterexample). -/
theorem fingerprint_of_eq_fields (p1 p2 : JobSearchParams)
    (ht : p1.title = p2.title) (hl : p1.location = p2.location)
    (hj : p1.job_type = p2.job_type) (hp : p1.page = p2.page) :
    getSearchCacheKey p1 = getSearchCacheKey p2 := by
  unfold getSearchCacheKey
  rw [ht, hl, hj, hp]

/-- Witness for the amended C4: tuples equal on the four fingerprint fields
but different in `results_per_page` share the fingerprint. -/
theorem fingerprint_of_eq_fields_witness :
    getSearchCacheKey ⟨some "dev", some "nyc", none, some 2, some 10⟩ =
      getSearchCacheKey ⟨some "dev", some "nyc", none, some 2, some 50⟩ :=
  fingerprint_of_eq_fields _ _ rfl rfl rfl rfl

/-- Folding cache writes over listings none of which carries the looked-up
id leaves the document at that id unchanged. -/
theorem getDocIn_foldl_set_of_not_mem (f : JobListing → CachedJobDoc)
    (jobs : List JobListing) (st : JobsStore) (id : String)
    (h : ∀ j ∈ jobs, (j.id == id) = false) :
    getDocIn (jobs.foldl (fun acc job => setDocIn acc job.id (f job)) st) id
      = getDocIn st id := by
  induction jobs generalizing st with
  | nil => rfl
  | cons j rest ih =>
    simp only [List.foldl_cons]
    rw [ih _ (fun x hx => h x (List.mem_cons_of_mem _ hx))]
    exact getDocIn_setDocIn_ne _ _ _ _ (h j (List.mem_cons_self _ _))

/-- After folding cache writes over `jobs`, the document at an id carried by
some listing is the written document of one of those listings. -/
theorem getDocIn_foldl_set_mem (f : JobListing → CachedJobDoc)
    (jobs : List JobListing) (st : JobsStore) (id : String)
    (h : ∃ j ∈ jobs, j.id = id) :
    ∃ j ∈ jobs, j.id = id ∧
      getDocIn (jobs.foldl (fun acc job => setDocIn acc job.id (f job)) st) id
        = some (f j) := by
  induction jobs generalizing st with
  | nil =>
    obtain ⟨j, hj, _⟩ := h
    cases hj
  | cons j0 rest ih =>
    by_cases hrest : ∃ j ∈ rest, j.id = id
    · obtain ⟨j, hj, hid, heq⟩ := ih (setDocIn st j0.id (f j0)) hrest
      exact ⟨j, List.mem_cons_of_mem _ hj, hid, by simpa using heq⟩
    · obtain ⟨j, hj, hid⟩ := h
      rcases List.mem_cons.mp hj with rfl | hj'
      · refine ⟨j, List.mem_cons_self _ _, hid, ?_⟩
        simp only [List.foldl_cons]
        rw [getDocIn_foldl_set_of_not_mem]
        · rw [hid]
          exact getDocIn_setDocIn_self _ _ _
        · intro x hx
          by_cases hb : (x.id == id) = true
          · exact absurd ⟨x, hx, eq_of_beq hb⟩ hrest
          · simpa using hb
      · exact absurd ⟨j, hj', hid⟩ hrest

/-- C1 counterexample: a listing already stored with `isValid = false`,
`verifiedAt = 111` and 3 verification attempts is re-written by
`cacheSearchResults`; the stored verification fields afterwards are the
defaults (`true`, `null`, `0`), not the prior values — `batch.set` replaces
the document, so nothing is preserved. -/
theorem cacheSearchResults_overwrite_counterexample :
    (getDocIn [("j1",
        (⟨"j1", "u", Json.null, some 0, some 111, false, 3⟩ : CachedJobDoc))]
        "j1").map (fun d => (d.isValid, d.verifiedAt, d.verificationAttempts))
      = some (false, some 111, 3) ∧
    (getDocIn (cacheSearchResults []
        [("j1", ⟨"j1", "u", Json.null, some 0, some 111, false, 3⟩)] 999 true
        ⟨some "t", some "", some "", some 1, some 10⟩
        [⟨"j1", "u", Json.null⟩] 1 1).2.2
        "j1").map (fun d => (d.isValid, d.verifiedAt, d.verificationAttempts))
      = some (true, none, 0) := by
  constructor
  · rfl
  · rfl

/-- C1 (amended): every write of a listing through `cacheSearchResults` —
first write or overwrite alike — stores the default verification fields
(`isValid = true`, `verifiedAt = null`, zero attempts) and a fresh cache
timestamp; prior verification state is not preserved. -/
theorem cacheSearchResults_resets_verification (searchStore : SearchStore)
    (jobsStore : JobsStore) (now : Int) (params : JobSearchParams)
    (jobs : List JobListing) (totalJobs totalPages : Int)
    (job : JobListing) (hmem : job ∈ jobs) :
    ∃ d : CachedJobDoc,
      getDocIn (cacheSearchResults searchStore jobsStore now true params jobs
        totalJobs totalPages).2.2 job.id = some d ∧
      d.isValid = true ∧ d.verifiedAt = none ∧ d.verificationAttempts = 0 ∧
      d.createdAt = some now := by
  obtain ⟨j, hj, hid, heq⟩ := getDocIn_foldl_set_mem
    (fun j => jobDocOfListing j now) jobs jobsStore job.id ⟨job, hmem, rfl⟩
  refine ⟨jobDocOfListing j now, ?_, rfl, rfl, rfl, rfl⟩
  simpa [cacheSearchResults] using heq

/-- Witness for the amended C1: the overwrite of the counterexample store
again, produced by applying the amended theorem. -/
theorem cacheSearchResults_resets_verification_witness :
    ∃ d : CachedJobDoc,
      getDocIn (cacheSearchResults []
        [("j1", ⟨"j1", "u", Json.null, some 0, some 111, false, 3⟩)] 999 true
        ⟨some "t", some "", some "", some 1, some 10⟩
        [⟨"j1", "u", Json.null⟩] 1 1).2.2 "j1" = some d ∧
      d.isValid = true ∧ d.verifiedAt = none ∧ d.verificationAttempts = 0 ∧
      d.createdAt = some 999 :=
  cacheSearchResults_resets_verification [] _ 999 _ _ 1 1
    ⟨"j1", "u", Json.null⟩ (List.mem_singleton_self _)

/-- C2 counterexample: a listing cached 5 days ago with a redirect URL whose
probe would report 404 is run through the on-demand verify endpoint; the
endpoint reports it valid and leaves the store untouched (zero attempts):
the 10-day age gate is applied, not bypassed, even though the basic probe
(second conjunct) would have found the listing dead. -/
theorem verify_endpoint_age_gate_counterexample :
    verifyEndpointGET
        [("j1", ⟨"j1", "http://x", Json.null, some 0, none, true, 0⟩)]
        432000000 (some 404) none "j1" =
      (.ok ⟨true, none, 0⟩
        (some ⟨"j1", "http://x", Json.null, some 0, none, true, 0⟩),
       [("j1", ⟨"j1", "http://x", Json.null, some 0, none, true, 0⟩)]) ∧
    (verifyJobValidity
        [("j1", ⟨"j1", "http://x", Json.null, some 0, none, true, 0⟩)]
        432000000 (some 404)
        ⟨"j1", "http://x", Json.null, some 0, none, true, 0⟩).1 = false := by
  constructor
  · rfl
  · rfl

/-- C2 (amended): on-demand verification still applies the 10-day age gate to
the basic check — a cached listing younger than 10 days is reported valid
with no probe and no state change — and escalation to the advanced check
still requires age of at least 15 days (strictly more than 15 days in the
code): at or below 15 days the outcome is independent of the advanced fetch. -/
theorem verifyJobById_age_gates (store : JobsStore) (now : Int)
    (probe : Option Int) (adv : Option (Int × String)) (jobId : String)
    (job : CachedJobDoc) (t : Int)
    (hjob : getCachedJob store now jobId = some job)
    (ht : job.createdAt = some t) :
    (now - t < TEN_DAYS_MS →
      verifyJobById store now probe adv jobId = (true, store)) ∧
    (now - t ≤ FIFTEEN_DAYS_MS → ∀ adv2,
      verifyJobById store now probe adv jobId =
        verifyJobById store now probe adv2 jobId) := by
  constructor
  · intro h10
    simp [verifyJobById, hjob, ht, h10]
  · intro h15 adv2
    have hesc : ¬ (FIFTEEN_DAYS_MS < now - t) := by omega
    by_cases h10 : now - t < TEN_DAYS_MS
    · simp [verifyJobById, hjob, ht, h10]
    · simp [verifyJobById, hjob, ht, h10, hesc]

/-- Witness for the amended C2: the 5-day-old listing of the counterexample,
via the amended theorem's first conjunct. -/
theorem verifyJobById_age_gates_witness :
    verifyJobById
        [("j1", ⟨"j1", "http://x", Json.null, some 0, none, true, 0⟩)]
        432000000 (some 404) none "j1" =
      (true, [("j1", ⟨"j1", "http://x", Json.null, some 0, none, true, 0⟩)]) :=
  (verifyJobById_age_gates
    [("j1", ⟨"j1", "http://x", Json.null, some 0, none, true, 0⟩)]
    432000000 (some 404) none "j1"
    ⟨"j1", "http://x", Json.null, some 0, none, true, 0⟩ 0 rfl rfl).1
    (by decide)

/-- C3 counterexample: with a failing batch commit the cache write returns
`false`, yet the orchestrator's response for the same request is still the
fresh success envelope: the claimed all-or-nothing coupling does not exist. -/
theorem routeGET_write_failure_counterexample :
    (cacheSearchResults [] [] 0 false (paramsOf ⟨"t", "", "", 1, 10, false⟩)
        [⟨"j1", "u", Json.null⟩] 1 1).1 = false ∧
    (routeGET ⟨some "a", some "k", some "http://u", 0, false⟩ [] [] 0
        ⟨"t", "", "", 1, 10, false⟩
        (some (200, ⟨[⟨"j1", "u", Json.null⟩], 1⟩)) false).1
      = .successFresh [⟨"j1", "u", Json.null⟩] 1 1 1 := by
  constructor
  · rfl
  · rfl

/-- C3 (amended): once the provider fetch succeeds, the orchestrator returns
the fresh success envelope regardless of whether the batched cache write
succeeds; a failed listing batch write does not change the response (it is
only logged — the returned boolean of `cacheSearchResults` is discarded). -/
theorem routeGET_success_despite_write_failure (env : RouteEnv)
    (searchStore : SearchStore) (jobsStore : JobsStore) (now : Int)
    (p : RouteParams) (status : Int) (data : ProviderPayload)
    (commitOk : Bool)
    (hcache : (if p.skipCache then none
               else getCachedSearchResults searchStore now (paramsOf p))
      = none)
    (hcreds : (jsStrFalsy env.appId || jsStrFalsy env.apiKey ||
               jsStrFalsy env.baseUrl) = false)
    (hquota : (if env.isNewDay then 0 else env.requestsToday) < 90)
    (hok : respOk status = true) :
    (routeGET env searchStore jobsStore now p (some (status, data)) commitOk).1
      = .successFresh data.results data.count
          (jsCeilDiv data.count p.results_per_page) p.page := by
  simp [routeGET, hcache, hcreds, hok, Nat.not_le.mpr hquota]

/-- Witness for the amended C3: the concrete request of the counterexample,
with the failing commit, still yields the fresh success envelope. -/
theorem routeGET_success_despite_write_failure_witness :
    (routeGET ⟨some "a", some "k", some "http://u", 0, false⟩ [] [] 0
        ⟨"t", "", "", 1, 10, false⟩
        (some (200, ⟨[⟨"j1", "u", Json.null⟩], 1⟩)) false).1
      = .successFresh [⟨"j1", "u", Json.null⟩] 1 (jsCeilDiv 1 10) 1 :=
  routeGET_success_despite_write_failure _ _ _ _ _ 200 _ false rfl rfl
    (by decide) rfl

/-- One slice of the read loop equals a `filterMap` appended to the
accumulator. -/
theorem collectJobsBatch_spec (store : JobsStore) (ids : List String) :
    ∀ acc, collectJobsBatch store acc ids = acc ++ ids.filterMap (fun id =>
      match getDocIn store id with
      | some d => if d.isValid then some d else none
      | none => none) := by
  induction ids with
  | nil => intro acc; simp [collectJobsBatch]
  | cons i rest ih =>
    intro acc
    simp only [collectJobsBatch, List.filterMap_cons]
    rcases hdoc : getDocIn store i with _ | d
    · simpa using ih acc
    · by_cases hv : d.isValid
      · simp only [hv, if_true, ih (acc ++ [d]), List.append_assoc,
          List.singleton_append]
      · simpa [hv] using ih acc

/-- The sliced read loop equals the unsliced `filterMap`. -/
theorem getCachedJobsByIdsAux_spec (store : JobsStore) (n : Nat) :
    ∀ ids : List String, ids.length ≤ n → ∀ acc,
      getCachedJobsByIdsAux store ids acc = acc ++ ids.filterMap (fun id =>
        match getDocIn store id with
        | some d => if d.isValid then some d else none
        | none => none) := by
  induction n with
  | zero =>
    intro ids h acc
    have : ids = [] := List.eq_nil_of_length_eq_zero (Nat.le_zero.mp h)
    subst this
    simp [getCachedJobsByIdsAux]
  | succ n ih =>
    intro ids h acc
    match ids with
    | [] => simp [getCachedJobsByIdsAux]
    | y :: ys =>
      rw [getCachedJobsByIdsAux, collectJobsBatch_spec,
        ih ((y :: ys).drop 10) (by simp only [List.length_drop]; omega),
        List.append_assoc, ← List.filterMap_append, List.take_append_drop]

/-- C9: `getCachedJobsByIds` returns, in request order, exactly the stored
documents whose `isValid` flag is true, silently skipping ids with no
stored document; it takes no clock at all, so no retention-window check is
applied — an arbitrarily old listing is still returned as long as its
validity flag is true (only the single-id `getCachedJob` enforces expiry). -/
theorem getCachedJobsByIds_spec (store : JobsStore) (ids : List String) :
    getCachedJobsByIds store ids = ids.filterMap (fun id =>
      match getDocIn store id with
      | some d => if d.isValid then some d else none
      | none => none) := by
  rw [getCachedJobsByIds,
    getCachedJobsByIdsAux_spec store ids.length ids (Nat.le_refl _) []]
  rfl

/-- The maximum JS length over a list of candidates. -/
def maxLenOf (l : List String) : Nat :=
  l.foldr (fun s m => max (jsLen s) m) 0

theorem foldr_max_init (l : List String) (a : Nat) :
    l.foldr (fun s m => max (jsLen s) m) a = max (maxLenOf l) a := by
  induction l with
  | nil => simp [maxLenOf]
  | cons s rest ih =>
    simp only [List.foldr_cons, ih, maxLenOf, Nat.max_assoc]

theorem maxLenOf_append_singleton (l : List String) (x : String) :
    maxLenOf (l ++ [x]) = max (maxLenOf l) (jsLen x) := by
  show List.foldr _ 0 (l ++ [x]) = _
  rw [List.foldr_append, List.foldr_cons, List.foldr_nil, foldr_max_init]
  simp

theorem le_maxLenOf (l : List String) : ∀ c ∈ l, jsLen c ≤ maxLenOf l := by
  induction l with
  | nil => intro c hc; cases hc
  | cons s rest ih =>
    intro c hc
    rcases List.mem_cons.mp hc with rfl | hc
    · exact Nat.le_max_left _ _
    · exact Nat.le_trans (ih c hc) (Nat.le_max_right _ _)

theorem sortByLenDesc_append_singleton (l : List String) (x : String) :
    sortByLenDesc (l ++ [x]) = insertByLenDesc x (sortByLenDesc l) := by
  show List.foldl _ [] (l ++ [x]) = _
  rw [List.foldl_append]
  rfl

/-- The head of the stable length-descending sort of a non-empty list is its
first element of maximal length — the JS `sort((a,b) => b.length -
a.length)[0]` with stable tie-breaking by collection order. -/
theorem sortByLenDesc_head (l : List String) (hl : l ≠ []) :
    ∃ h, (sortByLenDesc l).head? = some h ∧ jsLen h = maxLenOf l ∧
      l.find? (fun c => jsLen c == maxLenOf l) = some h := by
  induction l using List.reverseRecOn with
  | nil => exact absurd rfl hl
  | append_singleton l x ih =>
    by_cases hl0 : l = []
    · subst hl0
      refine ⟨x, rfl, ?_, ?_⟩
      · simp [maxLenOf]
      · simp [List.find?, maxLenOf]
    · obtain ⟨h, hhead, hlen, hfind⟩ := ih hl0
      rcases hs : sortByLenDesc l with _ | ⟨a, rest⟩
      · rw [hs] at hhead
        cases hhead
      · rw [hs] at hhead
        have ha : a = h := by
          simpa using hhead
        subst ha
        rw [sortByLenDesc_append_singleton, hs]
        by_cases hlt : jsLen a < jsLen x
        · have hmax : maxLenOf (l ++ [x]) = jsLen x := by
            rw [maxLenOf_append_singleton, ← hlen]
            exact Nat.max_eq_right (Nat.le_of_lt hlt)
          refine ⟨x, ?_, ?_, ?_⟩
          · simp [insertByLenDesc, hlt]
          · exact hmax.symm
          · rw [List.find?_append]
            have hnone : l.find? (fun c => jsLen c == maxLenOf (l ++ [x]))
                = none := by
              rw [List.find?_eq_none]
              intro c hc hbeq
              have := eq_of_beq hbeq
              have hle := le_maxLenOf l c hc
              rw [hmax] at this
              omega
            rw [hnone, Option.none_or]
            simp [List.find?, hmax]
        · have hmax : maxLenOf (l ++ [x]) = maxLenOf l := by
            rw [maxLenOf_append_singleton, ← hlen]
            exact Nat.max_eq_left (Nat.le_of_not_lt hlt)
          refine ⟨a, ?_, ?_, ?_⟩
          · simp [insertByLenDesc, hlt]
          · rw [hmax, hlen]
          · rw [List.find?_append, hmax, hfind]
            rfl

/-- On a trimmed-non-empty query free of boolean operators, the optimizer
reduces to the better-matches branch. -/
theorem optimize_main_branch (q : String) (htrim : jsTrim q ≠ "")
    (hOR : jsIncludes q " OR " = false) (hAND : jsIncludes q " AND " = false) :
    optimizeSearchQuery q =
      if 0 < (betterMatchesOf q).length
      then (sortByLenDesc (betterMatchesOf q)).headD q else q := by
  have hq : (q == "") = false := by
    rcases hb : q == "" with _ | _
    · rfl
    · have hq' : q = "" := eq_of_beq hb
      subst hq'
      exact absurd rfl htrim
  have htrimb : (jsTrim q == "") = false := by
    rcases hb : jsTrim q == "" with _ | _
    · rfl
    · exact absurd (eq_of_beq hb) htrim
  unfold optimizeSearchQuery
  rw [hq, htrimb, hOR, hAND]
  simp only [Bool.or_self, Bool.false_eq_true, if_false]

/-- On the better-matches branch with a non-empty candidate list, the
optimizer's result is the first longest better match, and in particular a
member of the better-matches list. -/
theorem optimize_nonempty_better (q : String) (htrim : jsTrim q ≠ "")
    (hOR : jsIncludes q " OR " = false) (hAND : jsIncludes q " AND " = false)
    (hne : betterMatchesOf q ≠ []) :
    (betterMatchesOf q).find?
        (fun c => jsLen c == maxLenOf (betterMatchesOf q))
      = some (optimizeSearchQuery q) ∧
    optimizeSearchQuery q ∈ betterMatchesOf q := by
  obtain ⟨h, hhead, hlen, hfind⟩ := sortByLenDesc_head _ hne
  have hpos : 0 < (betterMatchesOf q).length := List.length_pos.mpr hne
  have hheadD : (sortByLenDesc (betterMatchesOf q)).headD q = h := by
    rcases hs : sortByLenDesc (betterMatchesOf q) with _ | ⟨a, rest⟩
    · rw [hs] at hhead
      cases hhead
    · rw [hs] at hhead
      have ha : a = h := by simpa using hhead
      rw [List.headD_cons, ha]
  have hopt : optimizeSearchQuery q = h := by
    rw [optimize_main_branch q htrim hOR hAND, if_pos hpos, hheadD]
  constructor
  · rw [hopt]
    exact hfind
  · rw [hopt]
    exact List.mem_of_find?_eq_some hfind

/-- C6 counterexample: for the input "SRE" (non-empty, no boolean operator)
the collected candidate set is `["SRE", "sre"]`.  Per the claim, only
candidates equal to the original query or shorter are discarded, so "sre"
(different from "SRE" and of equal length) remains, and as the longest
remaining candidate it should be returned; the code instead discards it
(its filter compares case-insensitively and requires strictly greater
length) and returns the original "SRE". -/
theorem optimize_discard_rule_counterexample :
    allMatchesOf "SRE" = ["SRE", "sre"] ∧
    (allMatchesOf "SRE").filter
        (fun c => !(c == "SRE") && !(jsLen c < jsLen "SRE")) = ["sre"] ∧
    optimizeSearchQuery "SRE" ≠ "sre" ∧
    optimizeSearchQuery "SRE" = "SRE" := by
  refine ⟨by decide, by decide, by decide, by decide⟩

/-- C6 (amended): for every query with a non-empty trimmed form and without
`" OR "`/`" AND "`, the optimizer discards from the collected candidate set
exactly those candidates that are case-insensitively equal to the original
query or not strictly longer than it (`betterMatchesOf`); if none remain
the query is returned unchanged, and otherwise the result is the longest
remaining candidate, ties broken by collection order (the first candidate
attaining the maximal length). -/
theorem optimize_first_longest (q : String) (htrim : jsTrim q ≠ "")
    (hOR : jsIncludes q " OR " = false) (hAND : jsIncludes q " AND " = false) :
    (betterMatchesOf q = [] → optimizeSearchQuery q = q) ∧
    (betterMatchesOf q ≠ [] →
      (betterMatchesOf q).find?
          (fun c => jsLen c == maxLenOf (betterMatchesOf q))
        = some (optimizeSearchQuery q)) := by
  constructor
  · intro hempty
    rw [optimize_main_branch q htrim hOR hAND, hempty]
    rfl
  · intro hne
    exact (optimize_nonempty_better q htrim hOR hAND hne).1

/-- Witness for the amended C6: the abbreviation "swe" yields a non-empty
better-matches list and the optimizer returns its first longest element. -/
theorem optimize_first_longest_witness :
    (betterMatchesOf "swe").find?
        (fun c => jsLen c == maxLenOf (betterMatchesOf "swe"))
      = some (optimizeSearchQuery "swe") :=
  (optimize_first_longest "swe" (by decide) (by decide) (by decide)).2
    (by decide)

/-- C10: on every query whose trimmed form is non-empty, the optimizer either
returns the query itself or a strictly longer string — the output is never
shorter than the input. -/
theorem optimize_never_shortens (q : String) (htrim : jsTrim q ≠ "") :
    optimizeSearchQuery q = q ∨ jsLen q < jsLen (optimizeSearchQuery q) := by
  have hq : (q == "") = false := by
    rcases hb : q == "" with _ | _
    · rfl
    · have hq' : q = "" := eq_of_beq hb
      subst hq'
      exact absurd rfl htrim
  have htrimb : (jsTrim q == "") = false := by
    rcases hb : jsTrim q == "" with _ | _
    · rfl
    · exact absurd (eq_of_beq hb) htrim
  by_cases hbool : (jsIncludes q " OR " || jsIncludes q " AND ") = true
  · left
    unfold optimizeSearchQuery
    rw [hq, htrimb]
    simp [hbool]
  · have hOR : jsIncludes q " OR " = false := by
      rcases h : jsIncludes q " OR " with _ | _
      · rfl
      · exact absurd (by simp [h]) hbool
    have hAND : jsIncludes q " AND " = false := by
      rcases h : jsIncludes q " AND " with _ | _
      · rfl
      · exact absurd (by simp [h]) hbool
    by_cases hne : betterMatchesOf q = []
    · left
      rw [optimize_main_branch q htrim hOR hAND, hne]
      rfl
    · right
      have hmem := (optimize_nonempty_better q htrim hOR hAND hne).2
      have hp := List.of_mem_filter hmem
      simp only [Bool.and_eq_true, decide_eq_true_eq] at hp
      exact hp.2

/-- Witness for C10: a query that the optimizer strictly lengthens. -/
theorem optimize_never_shortens_witness :
    optimizeSearchQuery "data sci" = "data sci" ∨
      jsLen "data sci" < jsLen (optimizeSearchQuery "data sci") :=
  optimize_never_shortens "data sci" (by decide)

end Shopping
